import Mathlib

/-
  Shallow embedding of crates/ra_ide/src/link_rewrite.rs: the intra-doc /
  path-based documentation-link rewriting pipeline.

  Conventions of the embedding:
  * Rust strings are Lean String; character-level operations go through
    String.toList, matching Rust's chars() (all table entries are ASCII, so
    Rust byte lengths coincide with char counts).
  * Fallible Rust code (Option / Result + `?` / `.ok()`) becomes Option.
  * External collaborators (path parser, symbol resolver, import map,
    attribute introspection, crate accessors) are bundled into an abstract
    DB structure of functions, as the source only consumes their interfaces.
  * The url crate is modelled from the spec: standard relative-URL
    resolution (RFC 3986 merge) restricted to the reference forms the
    resolvers actually produce (plain relative segment paths, absolute
    URLs); dot-segment, query and fragment normalization are omitted since
    no verified claim exercises them.
-/

namespace LinkRw

/- ===== Rust std string-operation models ===== -/

/- Backtick character, by code point. -/
def btick : Char := Char.ofNat 96

/- str::starts_with for string patterns. -/
def startsWithStr (s p : String) : Bool :=
  p.toList.isPrefixOf s.toList

/- str::ends_with for string patterns. -/
def endsWithStr (s p : String) : Bool :=
  p.toList.isSuffixOf s.toList

/- chars().nth(n). -/
def charNth (s : String) (n : Nat) : Option Char :=
  s.toList.get? n

/- Substring containment on char lists (str::contains with a str pattern). -/
def isInfixChars (pat : List Char) : List Char → Bool
  | [] => pat.isEmpty
  | c :: rest => pat.isPrefixOf (c :: rest) || isInfixChars pat rest

def containsSub (s pat : String) : Bool :=
  isInfixChars pat.toList s.toList

/-
  str::split / String.splitOn model with structural (fuelled) recursion so
  that terms reduce in the kernel; each step consumes at least one
  character, so fuel |s| + 1 suffices.
-/
def splitOnAux (sep : List Char) : Nat → List Char → List Char → List String
  | 0, _, acc => [String.mk acc.reverse]
  | Nat.succ n, s, acc =>
    match s with
    | [] => [String.mk acc.reverse]
    | x :: rest =>
      if sep.isPrefixOf s then
        String.mk acc.reverse :: splitOnAux sep n (List.drop sep.length s) []
      else splitOnAux sep n rest (x :: acc)

def splitOnStr (s sep : String) : List String :=
  if sep = "" then [s]
  else splitOnAux sep.toList (s.toList.length + 1) s.toList []

example : splitOnStr "k/" "/" = ["k", ""] := by decide
example : splitOnStr "a/b" "/" = ["a", "b"] := by decide
example : splitOnStr "" "/" = [""] := by decide
example : splitOnStr "https://x/y" "://" = ["https", "x/y"] := by decide

/-
  Repeatedly remove the pattern p from the front of s
  (str::trim_start_matches).  Each successful step removes at least one
  character, so fuel |s| + 1 always suffices; the fuel only makes the
  recursion structural.
-/
def stripPreAux (p : List Char) : Nat → List Char → List Char
  | 0, s => s
  | Nat.succ n, s =>
    if p ≠ [] ∧ p.isPrefixOf s then stripPreAux p n (List.drop p.length s)
    else s

def stripPreRep (p s : List Char) : List Char :=
  stripPreAux p (s.length + 1) s

def trimStartMatches (s p : String) : String :=
  String.mk (stripPreRep p.toList s.toList)

/- str::trim_end_matches, via reversal. -/
def trimEndMatches (s p : String) : String :=
  String.mk (stripPreRep p.toList.reverse s.toList.reverse).reverse

/- str::trim_matches(c): strip all copies of c from both ends. -/
def trimMatchesChar (s : String) (c : Char) : String :=
  String.mk
    (((s.toList.dropWhile (fun x => x == c)).reverse.dropWhile
        (fun x => x == c)).reverse)

/- str::trim(): whitespace from both ends. -/
def trimWs (s : String) : String :=
  String.mk
    (((s.toList.dropWhile Char.isWhitespace).reverse.dropWhile
        Char.isWhitespace).reverse)

/- ===== Namespace disambiguation tables (link_rewrite.rs lines 88-92) ===== -/

def TYPES : List String × List String :=
  (["type", "struct", "enum", "mod", "trait", "union", "module"], [])

def VALUES : List String × List String :=
  (["value", "function", "fn", "method", "const", "static", "mod", "module"],
   ["()"])

def MACROS : List String × List String :=
  (["macro"], ["!"])

inductive Namespace
  | types
  | values
  | macros
deriving DecidableEq

/-
  The per-table match condition of Namespace::from_intra_spec: s starts
  with a table entry and the character at index entry-length + 1 is '@' or
  ' '.  The source applies starts_with to suffix entries as well (the
  grammar quirk preserved from the original).
-/
def specCond (s : String) (tbl : List String × List String) : Bool :=
  (tbl.1.any (fun p =>
      startsWithStr s p &&
        (match charNth s (p.length + 1) with
          | some c => c == '@' || c == ' '
          | none => false))) ||
  (tbl.2.any (fun p =>
      startsWithStr s p &&
        (match charNth s (p.length + 1) with
          | some c => c == '@' || c == ' '
          | none => false)))

/- Namespace::from_intra_spec (lines 102-133): first matching table wins. -/
def Namespace.from_intra_spec (s : String) : Option Namespace :=
  ((([(Namespace.types, TYPES), (Namespace.values, VALUES),
      (Namespace.macros, MACROS)]).filter
        (fun x => specCond s x.2)).head?).map (fun x => x.1)

/-
  Spec-form restatement of the disambiguator, following the claim's words:
  tables consulted in the fixed order Types, Values, Macros, first matching
  namespace returned, none when no table matches.
-/
def fromIntraSpecR (s : String) : Option Namespace :=
  if specCond s TYPES then some Namespace.types
  else if specCond s VALUES then some Namespace.values
  else if specCond s MACROS then some Namespace.macros
  else none

/- One table pass of strip_prefixes_suffixes (lines 146-149). -/
def stripTable (s : String) (tbl : List String × List String) : String :=
  let s1 := tbl.1.foldl (fun acc p => trimStartMatches acc p) s
  tbl.2.foldl (fun acc p => trimEndMatches acc p) s1

def nsAllTables : List (List String × List String) := [TYPES, VALUES, MACROS]

/- strip_prefixes_suffixes (lines 137-151). -/
def strip_prefixes_suffixes (s : String) : String :=
  let s1 := trimMatchesChar s btick
  let s2 := nsAllTables.foldl stripTable s1
  trimWs (trimStartMatches s2 "@")

example : strip_prefixes_suffixes "fn@foo" = "foo" := by decide
example : strip_prefixes_suffixes "struct S" = "S" := by decide
example : strip_prefixes_suffixes "macro!" = "" := by decide
example : strip_prefixes_suffixes "structtype" = "type" := by decide
example : strip_prefixes_suffixes "type" = "" := by decide
example : Namespace.from_intra_spec "fn@foo" = none := by decide
example : Namespace.from_intra_spec "struct S" = none := by decide
example : Namespace.from_intra_spec "macro!" = none := by decide
example : Namespace.from_intra_spec "macro @x" = some Namespace.macros := by
  decide
example : Namespace.from_intra_spec "struct  S" = some Namespace.types := by
  decide

/- ===== Model of the url crate (spec: standard relative-URL resolution) ===== -/

/-
  Modelled from the spec: the URL library is an external collaborator; the
  spec describes its use as "joined ... (standard relative-URL resolution)".
  A Url is scheme://host/ followed by path segments; a trailing empty
  segment encodes a trailing slash.  Joining a plain relative reference
  onto a base merges per RFC 3986 section 5.3: the last segment of the
  base path (everything after the final slash) is dropped and the
  reference's segments are appended.  Parsing and joining of the absolute
  and relative forms produced by this file are covered; dot segments,
  queries and fragments are not (no claim exercises them).
-/
structure Url where
  scheme : String
  host : String
  path : List String
deriving DecidableEq

def Url.parse? (s : String) : Option Url :=
  match splitOnStr s "://" with
  | [] => none
  | [_] => none
  | scheme :: rest =>
    if scheme = "" then none
    else
      let afterScheme := String.intercalate "://" rest
      let hostChars := afterScheme.toList.takeWhile (fun c => c != '/')
      let restChars := afterScheme.toList.dropWhile (fun c => c != '/')
      if hostChars = [] then none
      else
        let path :=
          match restChars with
          | [] => [""]
          | _ :: p => splitOnStr (String.mk p) "/"
        some { scheme := scheme, host := String.mk hostChars, path := path }

def Url.join (u : Url) (ref : String) : Option Url :=
  if ref = "" then some u
  else if containsSub ref "://" then Url.parse? ref
  else if startsWithStr ref "/" then
    some { scheme := u.scheme, host := u.host, path := splitOnStr (String.mk (ref.toList.drop 1)) "/" }
  else
    some { scheme := u.scheme, host := u.host,
           path := u.path.dropLast ++ splitOnStr ref "/" }

def Url.toString (u : Url) : String :=
  u.scheme ++ "://" ++ u.host ++ "/" ++ String.intercalate "/" u.path

example : Url.parse? "https://x/" = some { scheme := "https", host := "x", path := [""] } := by decide
example : ((({ scheme := "https", host := "x", path := [""] } : Url).join "k/").bind
    (fun u => (u.join "a/b").bind (fun u => u.join "struct.S.html"))).map Url.toString =
    some "https://x/k/a/struct.S.html" := by decide

/- ===== External-interface data model (hir / ra_ide_db / ra_tt) ===== -/

/-
  Symbols: hir's Adt / ModuleDef / Definition shapes, restricted to what
  get_symbol_filename and the resolvers read.  The name accessors
  (s.name(db) etc.) are collapsed into constructor data; Const, Static and
  Macro names are optional exactly as in the source (`?` on name).
-/
inductive Adt
  | struct (name : String)
  | enum (name : String)
  | union (name : String)
deriving DecidableEq

inductive ModuleDef
  | adt (a : Adt)
  | module
  | trait (name : String)
  | typeAlias (name : String)
  | builtinType (name : String)
  | function (name : String)
  | enumVariant (parentEnum : String) (name : String)
  | const (name : Option String)
  | static (name : Option String)
deriving DecidableEq

inductive Definition
  | moduleDef (d : ModuleDef)
  | macroDef (name : Option String)
  | other (k : Nat)
deriving DecidableEq

inductive ItemInNs
  | types (d : ModuleDef)
  | values (d : ModuleDef)
deriving DecidableEq

structure Crate where
  id : Nat
deriving DecidableEq

structure Module where
  krate : Crate
deriving DecidableEq

structure ModPath where
  segments : List String
deriving DecidableEq

structure ImportPath where
  segments : List String
deriving DecidableEq

/- resolver.resolve_module_path_in_items result, split by namespace. -/
structure PerNs where
  types : Option ModuleDef
  values : Option ModuleDef
deriving DecidableEq

structure Resolver where
  resolve : ModPath → PerNs

/- ra_tt token trees, restricted to what get_doc_url scans. -/
inductive TtLeaf
  | ident (text : String)
  | punct (text : String)
  | literal (text : String)

inductive TokenTree
  | leaf (l : TtLeaf)
  | subtree (tts : List TokenTree)

/- db.attrs(..).by_key("doc"): existence plus structured token contents. -/
structure DocAttr where
  docExists : Bool
  ttValues : List (List TokenTree)

/-
  The external collaborators consumed by link_rewrite.rs, as one bundle of
  abstract capabilities: the path parser (Path::parse + ModPath::from_src),
  definition.resolver(db), def.module(db), krate.display_name(db), the
  the import map's path_of, krate.root_module(db), attribute introspection.
-/
structure DB where
  parseModPath : String → Option ModPath
  resolverOf : Definition → Option Resolver
  moduleOf : ModuleDef → Option Module
  displayName : Crate → Option String
  importMapPathOf : Crate → ItemInNs → Option ImportPath
  rootModule : Crate → Option Module
  attrsDoc : Module → DocAttr

/- ===== get_doc_url (lines 245-271) ===== -/

def isHtmlRootIdent : TokenTree → Bool
  | TokenTree.leaf (TtLeaf.ident text) => text == "html_root_url"
  | _ => false

/-
  Scan one attribute subtree: skip to the html_root_url identifier, skip
  two more tokens (the identifier itself and the expected '='), and expect
  a string literal.
-/
def findHtmlRootUrl (tts : List TokenTree) : Option String :=
  match ((tts.dropWhile (fun t => !(isHtmlRootIdent t))).drop 2).head? with
  | some (TokenTree.leaf (TtLeaf.literal text)) => some text
  | _ => none

def get_doc_url (db : DB) (krate : Crate) : Option Url :=
  match db.rootModule krate with
  | none => none
  | some root =>
    let attrs := db.attrsDoc root
    let doc_url : Option String :=
      if attrs.docExists then
        (attrs.ttValues.filterMap findHtmlRootUrl).head?
      else
        (db.displayName krate).map
          (fun name => "https://docs.rs/" ++ name ++ "/*")
    doc_url.bind (fun s =>
      Url.parse? (trimEndMatches (trimMatchesChar s '"') "/" ++ "/"))

/- ===== get_symbol_filename (lines 276-298) ===== -/

def get_symbol_filename (_db : DB) (definition : Definition) : Option String :=
  match definition with
  | Definition.moduleDef d =>
    match d with
    | ModuleDef.adt (Adt.struct n) => some ("struct." ++ n ++ ".html")
    | ModuleDef.adt (Adt.enum n) => some ("enum." ++ n ++ ".html")
    | ModuleDef.adt (Adt.union n) => some ("union." ++ n ++ ".html")
    | ModuleDef.module => some "index.html"
    | ModuleDef.trait n => some ("trait." ++ n ++ ".html")
    | ModuleDef.typeAlias n => some ("type." ++ n ++ ".html")
    | ModuleDef.builtinType n => some ("primitive." ++ n ++ ".html")
    | ModuleDef.function n => some ("fn." ++ n ++ ".html")
    | ModuleDef.enumVariant p n =>
      some ("enum." ++ p ++ ".html#variant." ++ n)
    | ModuleDef.const n? => n?.map (fun n => "const." ++ n ++ ".html")
    | ModuleDef.static n? => n?.map (fun n => "static." ++ n ++ ".html")
  | Definition.macroDef n? => n?.map (fun n => "macro." ++ n ++ ".html")
  | Definition.other _ => none

/- ===== try_resolve_intra (lines 156-216) ===== -/

/- Implied-shortlink substitution (line 163-164). -/
def intraTarget (link_text link_target : String) : String :=
  if link_target = "" then trimMatchesChar link_text btick else link_target

/- Namespace selection (lines 180-190). -/
def selectNamespace (ns : Option Namespace) (resolved : PerNs) :
    Option (ModuleDef × Namespace) :=
  match ns with
  | none =>
    (resolved.types.map (fun t => (t, Namespace.types))).or
      (resolved.values.map (fun t => (t, Namespace.values)))
  | some Namespace.types => resolved.types.map (fun t => (t, Namespace.types))
  | some Namespace.values => resolved.values.map (fun t => (t, Namespace.values))
  | some Namespace.macros => none

/- URL assembly for the selected symbol (lines 193-215). -/
def buildIntraUrl (db : DB) (link_text : String) (def_ : ModuleDef)
    (ns : Namespace) : Option (String × String) :=
  match db.moduleOf def_ with
  | none => none
  | some module =>
    let krate := module.krate
    match (match ns with
           | Namespace.types => some (ItemInNs.types def_)
           | Namespace.values => some (ItemInNs.values def_)
           | Namespace.macros => none) with
    | none => none
    | some item =>
      match db.importMapPathOf krate item with
      | none => none
      | some path =>
        match get_doc_url db krate with
        | none => none
        | some url0 =>
          match db.displayName krate with
          | none => none
          | some name =>
            (url0.join (name ++ "/")).bind (fun url1 =>
              (url1.join (String.intercalate "/" path.segments)).bind
                (fun url2 =>
                  (get_symbol_filename db (Definition.moduleDef def_)).bind
                    (fun fname =>
                      (url2.join fname).map (fun url3 =>
                        (url3.toString,
                         strip_prefixes_suffixes link_text)))))

def try_resolve_intra (db : DB) (definition : Definition)
    (link_text link_target : String) : Option (String × String) :=
  let target0 := intraTarget link_text link_target
  let ns := Namespace.from_intra_spec target0
  let stripped := strip_prefixes_suffixes target0
  match db.parseModPath stripped with
  | none => none
  | some modpath =>
    match db.resolverOf definition with
    | none => none
    | some resolver =>
      let resolved := resolver.resolve modpath
      match selectNamespace ns resolved with
      | none => none
      | some (def_, ns2) => buildIntraUrl db link_text def_ ns2

/- ===== try_resolve_path (lines 219-242) ===== -/

def try_resolve_path (db : DB) (definition : Definition) (link : String) :
    Option String :=
  if !(containsSub link "#") && !(containsSub link ".html") then none
  else
    match definition with
    | Definition.moduleDef moddef =>
      let ns := ItemInNs.types moddef
      match db.moduleOf moddef with
      | none => none
      | some module =>
        let krate := module.krate
        match db.displayName krate with
        | none => none
        | some name =>
          match db.importMapPathOf krate ns with
          | none => none
          | some p =>
            let base := String.intercalate "/" (name :: p.segments)
            (get_doc_url db krate).bind (fun url1 =>
              (url1.join base).bind (fun url2 =>
                (get_symbol_filename db definition).bind (fun f =>
                  (url2.join f).bind (fun url3 =>
                    (url3.join link).map Url.toString))))
    | _ => none

/- ===== rewrite_links: markup events and the per-link dispatcher ===== -/

/-
  pulldown_cmark events, restricted to the tags map_links inspects; the
  link type is an opaque Nat, all other event kinds collapse into
  passthrough constructors.
-/
inductive Tag
  | link (linkType : Nat) (target : String) (title : String)
  | otherTag (k : Nat)
deriving DecidableEq

inductive Event
  | start (t : Tag)
  | endT (t : Tag)
  | text (s : String)
  | code (s : String)
  | otherEv (k : Nat)
deriving DecidableEq

/-
  map_links (lines 50-79) as explicit state passing: in_link flag and the
  recorded link target.  The Rust `link_target.take().unwrap()` on a
  link-end event aborts when no target is recorded; the model returns none
  there (none = the Rust panic; some = a produced event stream).
-/
def mapLinksGo (cb : String → String → String × String) :
    Bool → Option String → List Event → Option (List Event)
  | _, _, [] => some []
  | inLink, tgt, e :: rest =>
    match e with
    | Event.start (Tag.link lt target title) =>
      (mapLinksGo cb true (some target) rest).map
        (fun r => Event.start (Tag.link lt target title) :: r)
    | Event.endT (Tag.link lt _ _) =>
      match tgt with
      | none => none
      | some t =>
        (mapLinksGo cb false none rest).map
          (fun r => Event.endT (Tag.link lt t "") :: r)
    | Event.text s =>
      if inLink then
        match tgt with
        | none => none
        | some t =>
          let p := cb t s
          (mapLinksGo cb inLink (some p.1) rest).map
            (fun r => Event.text p.2 :: r)
      else
        (mapLinksGo cb inLink tgt rest).map (fun r => Event.text s :: r)
    | Event.code s =>
      if inLink then
        match tgt with
        | none => none
        | some t =>
          let p := cb t s
          (mapLinksGo cb inLink (some p.1) rest).map
            (fun r => Event.code p.2 :: r)
      else
        (mapLinksGo cb inLink tgt rest).map (fun r => Event.code s :: r)
    | e' => (mapLinksGo cb inLink tgt rest).map (fun r => e' :: r)

def map_links (cb : String → String → String × String) (events : List Event) :
    Option (List Event) :=
  mapLinksGo cb false none events

/- The per-link classifier closure of rewrite_links (lines 24-43). -/
def rewriteCallback (db : DB) (definition : Definition)
    (target title : String) : String × String :=
  if containsSub target "://" then (target, title)
  else
    match (try_resolve_intra db definition title target).orElse
        (fun _ => (try_resolve_path db definition target).map
          (fun t => (t, title))) with
    | some (t, ti) => (t, ti)
    | none => (target, title)

/- ===== Concrete instances of the external world, used as witnesses ===== -/

def exStruct : ModuleDef := ModuleDef.adt (Adt.struct "S")

def exCrate : Crate := { id := 0 }

def exModule : Module := { krate := exCrate }

/-
  A crate named k whose root module carries
  #![doc(html_root_url = "https://x")], with a struct S publicly exported
  at import path [a, b].
-/
def exDB : DB :=
  { parseModPath := fun s => if s = "S" then some { segments := ["S"] } else none,
    resolverOf := fun _ => some { resolve := fun _ => { types := some exStruct, values := none } },
    moduleOf := fun _ => some exModule,
    displayName := fun _ => some "k",
    importMapPathOf := fun _ item =>
      if item = ItemInNs.types exStruct then some { segments := ["a", "b"] } else none,
    rootModule := fun _ => some exModule,
    attrsDoc := fun _ =>
      { docExists := true,
        ttValues := [[TokenTree.leaf (TtLeaf.ident "html_root_url"),
                      TokenTree.leaf (TtLeaf.punct "="),
                      TokenTree.leaf (TtLeaf.literal "\"https://x\"")]] } }

def exDef : Definition := Definition.moduleDef exStruct

example : get_doc_url exDB exCrate =
    some { scheme := "https", host := "x", path := [""] } := by decide
example : try_resolve_intra exDB exDef "struct S" "struct S" =
    some ("https://x/k/a/struct.S.html", "S") := by decide

/- ===== Claims ===== -/

/-
  Unfolding equation for try_resolve_intra, by pure
  delta/zeta-reduction (no string evaluation involved).
-/
theorem try_resolve_intra_eq (db : DB) (defn : Definition)
    (txt tgt : String) :
    try_resolve_intra db defn txt tgt =
      (match db.parseModPath (strip_prefixes_suffixes (intraTarget txt tgt)) with
       | none => none
       | some modpath =>
         match db.resolverOf defn with
         | none => none
         | some resolver =>
           match selectNamespace (Namespace.from_intra_spec (intraTarget txt tgt))
               (resolver.resolve modpath) with
           | none => none
           | some (d, ns2) => buildIntraUrl db txt d ns2) := rfl

/-
  Unfolding equation for buildIntraUrl at an already-selected Types-namespace
  symbol, again by pure reduction.
-/
theorem buildIntraUrl_types_eq (db : DB) (txt : String) (d : ModuleDef) :
    buildIntraUrl db txt d Namespace.types =
      (match db.moduleOf d with
       | none => none
       | some module =>
         match db.importMapPathOf module.krate (ItemInNs.types d) with
         | none => none
         | some path =>
           match get_doc_url db module.krate with
           | none => none
           | some url0 =>
             match db.displayName module.krate with
             | none => none
             | some name =>
               (url0.join (name ++ "/")).bind (fun url1 =>
                 (url1.join (String.intercalate "/" path.segments)).bind
                   (fun url2 =>
                     (get_symbol_filename db (Definition.moduleDef d)).bind
                       (fun fname =>
                         (url2.join fname).map (fun url3 =>
                           (url3.toString,
                            strip_prefixes_suffixes txt)))))) := rfl

/--
C1 (counterexample).  For the symbol S with canonical public import path
[a, b] in compilation unit k with doc root https://x/, resolving the
target `struct S` does NOT yield "https://x/k/a/b/struct.S.html": the
relative-URL join replaces the final import-path segment with the symbol
filename, producing "https://x/k/a/struct.S.html".
-/
theorem c1_counterexample :
    try_resolve_intra exDB exDef "struct S" "struct S" =
      some ("https://x/k/a/struct.S.html", "S") ∧
    try_resolve_intra exDB exDef "struct S" "struct S" ≠
      some ("https://x/k/a/b/struct.S.html", "S") := by
  exact ⟨by decide, by decide⟩

/--
C1 (amended).  For a symbol S (a struct named "S") with a canonical
public import path [a, b] in a compilation unit named k whose doc root is
https://x/, resolving the intra-doc target `struct S` via
try_resolve_intra yields "https://x/k/a/struct.S.html": the doc root
joined with the unit name, then every import-path segment but the last,
then the symbol filename — standard relative-URL resolution replaces the
final import-path segment (the symbol's own exported name) with the
Symbol Filename Generator's output.
-/
theorem c1_intra_url_assembly (db : DB) (defn : Definition) (mp : ModPath)
    (r : Resolver) (vv : Option ModuleDef) (k : Crate)
    (hparse : db.parseModPath "S" = some mp)
    (hres : db.resolverOf defn = some r)
    (hr : r.resolve mp =
      { types := some (ModuleDef.adt (Adt.struct "S")), values := vv })
    (hmod : db.moduleOf (ModuleDef.adt (Adt.struct "S")) = some { krate := k })
    (hname : db.displayName k = some "k")
    (himp : db.importMapPathOf k
      (ItemInNs.types (ModuleDef.adt (Adt.struct "S"))) =
        some { segments := ["a", "b"] })
    (hdoc : get_doc_url db k =
      some { scheme := "https", host := "x", path := [""] }) :
    try_resolve_intra db defn "struct S" "struct S" =
      some ("https://x/k/a/struct.S.html", "S") := by
  rw [try_resolve_intra_eq]
  rw [show strip_prefixes_suffixes (intraTarget "struct S" "struct S") = "S"
        from by decide,
      show Namespace.from_intra_spec (intraTarget "struct S" "struct S") = none
        from by decide]
  simp only [hparse, hres, hr, selectNamespace, Option.map_some', Option.or]
  rw [buildIntraUrl_types_eq]
  simp only [hmod, himp, hdoc, hname]
  rw [show get_symbol_filename db
        (Definition.moduleDef (ModuleDef.adt (Adt.struct "S"))) =
      some "struct.S.html" from rfl]
  decide

/--
C1 (witness for the amended theorem), at the concrete crate exDB.
-/
theorem c1_witness :
    try_resolve_intra exDB exDef "struct S" "struct S" =
      some ("https://x/k/a/struct.S.html", "S") :=
  c1_intra_url_assembly exDB exDef { segments := ["S"] }
    { resolve := fun _ => { types := some exStruct, values := none } }
    none exCrate rfl rfl rfl rfl rfl (by decide) (by decide)

/--
C5.  Namespace.from_intra_spec agrees everywhere with its spec-form
restatement: the three namespace tables are consulted in the fixed order
Types, Values, Macros; a namespace is returned exactly when its table
matches (s starts with a table entry and the character at index
entry-length + 1 is '@' or ' ', for the prefix entries or — under the
same starts-with offset rule — the suffix entries), the first matching
namespace wins, and none is returned when no table matches.
-/
theorem c5_from_intra_spec_characterization (s : String) :
    Namespace.from_intra_spec s = fromIntraSpecR s := by
  cases hT : specCond s TYPES <;> cases hV : specCond s VALUES <;>
    cases hM : specCond s MACROS <;>
      simp [Namespace.from_intra_spec, fromIntraSpecR, hT, hV, hM]

/--
C5 (witness), instantiated at the target "macro @x".
-/
theorem c5_witness :
    Namespace.from_intra_spec "macro @x" = fromIntraSpecR "macro @x" :=
  c5_from_intra_spec_characterization "macro @x"

/--
C6.  For the link target "fn@foo", when the external resolver resolves the
stripped path foo only in the Values namespace slot, try_resolve_intra
selects the Values-namespace symbol: the namespace selection step picks
(v, Values) and the returned link is the URL built for v in the Values
namespace.  (With the types slot empty, the default Types preference
cannot fire, so the Values match is selected.)
-/
theorem c6_values_selected (db : DB) (defn : Definition) (txt : String)
    (mp : ModPath) (r : Resolver) (v : ModuleDef)
    (hparse : db.parseModPath "foo" = some mp)
    (hres : db.resolverOf defn = some r)
    (hr : r.resolve mp = { types := none, values := some v }) :
    selectNamespace (Namespace.from_intra_spec "fn@foo") (r.resolve mp) =
      some (v, Namespace.values) ∧
    try_resolve_intra db defn txt "fn@foo" =
      buildIntraUrl db txt v Namespace.values := by
  have hns : Namespace.from_intra_spec "fn@foo" = none := by decide
  constructor
  · rw [hns, hr]
    rfl
  · rw [try_resolve_intra_eq]
    rw [show intraTarget txt "fn@foo" = "fn@foo" from rfl]
    rw [show strip_prefixes_suffixes "fn@foo" = "foo" from by decide, hns]
    simp only [hparse, hres, hr, selectNamespace, Option.map_some',
      Option.map_none', Option.or]

def exFn : ModuleDef := ModuleDef.function "foo"

/-
  A world in which "foo" resolves only in the Values namespace.
-/
def exDB6 : DB :=
  { parseModPath := fun s => if s = "foo" then some { segments := ["foo"] } else none,
    resolverOf := fun _ => some { resolve := fun _ => { types := none, values := some exFn } },
    moduleOf := fun _ => some exModule,
    displayName := fun _ => some "k",
    importMapPathOf := fun _ item =>
      if item = ItemInNs.values exFn then some { segments := ["foo"] } else none,
    rootModule := fun _ => some exModule,
    attrsDoc := fun _ =>
      { docExists := true,
        ttValues := [[TokenTree.leaf (TtLeaf.ident "html_root_url"),
                      TokenTree.leaf (TtLeaf.punct "="),
                      TokenTree.leaf (TtLeaf.literal "\"https://x\"")]] } }

/--
C6 (witness), at the concrete world exDB6.
-/
theorem c6_witness :
    selectNamespace (Namespace.from_intra_spec "fn@foo")
      ({ resolve := fun _ => { types := none, values := some exFn } : Resolver}.resolve
        { segments := ["foo"] }) = some (exFn, Namespace.values) ∧
    try_resolve_intra exDB6 exDef "fn@foo" "fn@foo" =
      buildIntraUrl exDB6 "fn@foo" exFn Namespace.values :=
  c6_values_selected exDB6 exDef "fn@foo" { segments := ["foo"] }
    { resolve := fun _ => { types := none, values := some exFn } }
    exFn rfl rfl rfl

/--
C7.  Macro-namespace intra-doc links always fail closed.  (a) On the
target "macro!" try_resolve_intra returns none for every resolver and
definition: the stripped target is the empty string, which the external
path parser rejects.  (b) On every target whose detected explicit
namespace is Macros, try_resolve_intra returns none regardless of what
the external resolver would answer for the path.
-/
theorem c7_macros_fail_closed :
    (∀ (db : DB) (defn : Definition) (txt : String),
      db.parseModPath "" = none →
      try_resolve_intra db defn txt "macro!" = none) ∧
    (∀ (db : DB) (defn : Definition) (txt tgt : String),
      Namespace.from_intra_spec (intraTarget txt tgt) = some Namespace.macros →
      try_resolve_intra db defn txt tgt = none) := by
  constructor
  · intro db defn txt h
    rw [try_resolve_intra_eq]
    rw [show intraTarget txt "macro!" = "macro!" from rfl]
    rw [show strip_prefixes_suffixes "macro!" = "" from by decide, h]
  · intro db defn txt tgt h
    rw [try_resolve_intra_eq, h]
    cases hp : db.parseModPath (strip_prefixes_suffixes (intraTarget txt tgt)) with
    | none => rfl
    | some mp =>
      cases hr : db.resolverOf defn with
      | none => rfl
      | some r => rfl

/--
C7 (witness): both parts at concrete inputs — the target "macro!" with
the exDB world, and the target "macro @x" whose detected namespace is
Macros.
-/
theorem c7_witness :
    try_resolve_intra exDB exDef "t" "macro!" = none ∧
    try_resolve_intra exDB exDef "t" "macro @x" = none :=
  ⟨c7_macros_fail_closed.1 exDB exDef "t" rfl,
   c7_macros_fail_closed.2 exDB exDef "t" "macro @x" (by decide)⟩

/--
C2.  Links whose target contains "://" pass through untouched: the
classifier closure returns the input target and text unchanged for every
database and definition (so neither resolver influences the result), and
map_links over such a link re-emits the link's target and text exactly,
only clearing the title on the link-end event.
-/
theorem c2_absolute_url_passthrough (db : DB) (defn : Definition)
    (lt lt2 : Nat) (tgt ttl s t2 ttl2 : String)
    (h : containsSub tgt "://" = true) :
    rewriteCallback db defn tgt s = (tgt, s) ∧
    map_links (rewriteCallback db defn)
      [Event.start (Tag.link lt tgt ttl), Event.text s,
       Event.endT (Tag.link lt2 t2 ttl2)] =
      some [Event.start (Tag.link lt tgt ttl), Event.text s,
            Event.endT (Tag.link lt2 tgt "")] := by
  have hcb : rewriteCallback db defn tgt s = (tgt, s) := by
    simp [rewriteCallback, h]
  refine ⟨hcb, ?_⟩
  simp [map_links, mapLinksGo, hcb]

/--
C2 (witness), for the absolute target "https://e.com".
-/
theorem c2_witness :
    rewriteCallback exDB exDef "https://e.com" "text" =
      ("https://e.com", "text") ∧
    map_links (rewriteCallback exDB exDef)
      [Event.start (Tag.link 0 "https://e.com" "ttl"), Event.text "text",
       Event.endT (Tag.link 0 "t2" "ttl2")] =
      some [Event.start (Tag.link 0 "https://e.com" "ttl"),
            Event.text "text",
            Event.endT (Tag.link 0 "https://e.com" "")] :=
  c2_absolute_url_passthrough exDB exDef 0 0 "https://e.com" "ttl" "text"
    "t2" "ttl2" (by decide)

/--
C3.  When both resolvers fail on a link, the classifier closure returns
the original target and text unchanged, and map_links re-emits the link
(it is neither dropped nor aborted), with only the title replaced by the
empty string on the link-end event.
-/
theorem c3_failed_resolvers_passthrough (db : DB) (defn : Definition)
    (lt lt2 : Nat) (tgt ttl s t2 ttl2 : String)
    (h1 : try_resolve_intra db defn s tgt = none)
    (h2 : try_resolve_path db defn tgt = none) :
    rewriteCallback db defn tgt s = (tgt, s) ∧
    map_links (rewriteCallback db defn)
      [Event.start (Tag.link lt tgt ttl), Event.text s,
       Event.endT (Tag.link lt2 t2 ttl2)] =
      some [Event.start (Tag.link lt tgt ttl), Event.text s,
            Event.endT (Tag.link lt2 tgt "")] := by
  have hcb : rewriteCallback db defn tgt s = (tgt, s) := by
    cases hc : containsSub tgt "://" with
    | true => simp [rewriteCallback, hc]
    | false => simp [rewriteCallback, hc, h1, h2, Option.orElse]
  refine ⟨hcb, ?_⟩
  simp [map_links, mapLinksGo, hcb]

/--
C3 (witness), for the target "nope" which neither resolver accepts.
-/
theorem c3_witness :
    rewriteCallback exDB exDef "nope" "txt" = ("nope", "txt") ∧
    map_links (rewriteCallback exDB exDef)
      [Event.start (Tag.link 0 "nope" "ttl"), Event.text "txt",
       Event.endT (Tag.link 0 "t2" "ttl2")] =
      some [Event.start (Tag.link 0 "nope" "ttl"), Event.text "txt",
            Event.endT (Tag.link 0 "nope" "")] :=
  c3_failed_resolvers_passthrough exDB exDef 0 0 "nope" "ttl" "txt"
    "t2" "ttl2" (by decide) (by decide)

/- ===== C9 / C10: stream-level behaviour of map_links ===== -/

/-
  Events that map_links passes through untouched while inside a link:
  anything that is not a link start/end, text or code-span event.
-/
def evNeutral : Event → Bool
  | Event.start (Tag.link _ _ _) => false
  | Event.endT (Tag.link _ _ _) => false
  | Event.text _ => false
  | Event.code _ => false
  | _ => true

/-
  Well-pairedness of link events as produced by the markdown parser: every
  link-end has a currently-open link (the state machine mirror of
  map_links' own in_link flag).
-/
def linkEvOk : Bool → List Event → Bool
  | _, [] => true
  | isOpen, e :: rest =>
    match e with
    | Event.start (Tag.link _ _ _) => linkEvOk true rest
    | Event.endT (Tag.link _ _ _) => isOpen && linkEvOk false rest
    | _ => linkEvOk isOpen rest

theorem mapLinksGo_total (cb : String → String → String × String) :
    ∀ (evs : List Event) (isOpen : Bool) (tgt : Option String),
      tgt.isSome = isOpen → linkEvOk isOpen evs = true →
      (mapLinksGo cb isOpen tgt evs).isSome := by
  intro evs
  induction evs with
  | nil => intro isOpen tgt _ _; simp [mapLinksGo]
  | cons e rest ih =>
    intro isOpen tgt hst h
    cases e with
    | start tg =>
      cases tg with
      | link lt a b =>
        simp only [linkEvOk] at h
        simp [mapLinksGo]
        exact ih true (some a) rfl h
      | otherTag k2 =>
        simp only [linkEvOk] at h
        simp [mapLinksGo]
        exact ih isOpen tgt hst h
    | endT tg =>
      cases tg with
      | link lt a b =>
        simp only [linkEvOk, Bool.and_eq_true] at h
        obtain ⟨hopen, h⟩ := h
        subst hopen
        obtain ⟨t, ht⟩ := Option.isSome_iff_exists.mp hst
        subst ht
        simp [mapLinksGo]
        exact ih false none rfl h
      | otherTag k2 =>
        simp only [linkEvOk] at h
        simp [mapLinksGo]
        exact ih isOpen tgt hst h
    | text s =>
      simp only [linkEvOk] at h
      cases isOpen with
      | true =>
        obtain ⟨t, ht⟩ := Option.isSome_iff_exists.mp hst
        subst ht
        simp [mapLinksGo]
        exact ih true (some (cb t s).1) rfl h
      | false =>
        have : tgt = none := Option.not_isSome_iff_eq_none.mp (by simp [hst])
        subst this
        simp [mapLinksGo]
        exact ih false none rfl h
    | code s =>
      simp only [linkEvOk] at h
      cases isOpen with
      | true =>
        obtain ⟨t, ht⟩ := Option.isSome_iff_exists.mp hst
        subst ht
        simp [mapLinksGo]
        exact ih true (some (cb t s).1) rfl h
      | false =>
        have : tgt = none := Option.not_isSome_iff_eq_none.mp (by simp [hst])
        subst this
        simp [mapLinksGo]
        exact ih false none rfl h
    | otherEv k2 =>
      simp only [linkEvOk] at h
      simp [mapLinksGo]
      exact ih isOpen tgt hst h

/--
C9 (counterexample).  A link-end event with no preceding link-start makes
map_links hit `link_target.take().unwrap()` on None, i.e. a panic — the
model returns none rather than an event stream, so the rewrite does NOT
terminate normally on every malformed event sequence.
-/
theorem c9_counterexample :
    map_links (fun t s => (t, s)) [Event.endT (Tag.link 0 "x" "y")] =
      none := rfl

/--
C9 (amended).  On every event sequence in which each link-end event has a
currently-open link — the shape the markdown parser guarantees — map_links
terminates with a produced event stream for every callback; the panic is
reachable only through a link-end with no open link.
-/
theorem c9_no_panic_on_wellpaired (cb : String → String → String × String)
    (evs : List Event) (h : linkEvOk false evs = true) :
    (map_links cb evs).isSome :=
  mapLinksGo_total cb evs false none rfl h

/--
C9 (witness), on a well-paired two-link stream.
-/
theorem c9_witness :
    (map_links (fun t s => (t, s))
      [Event.start (Tag.link 0 "a" "b"), Event.text "x",
       Event.endT (Tag.link 0 "a" "b"), Event.otherEv 3,
       Event.start (Tag.link 1 "c" "d"),
       Event.endT (Tag.link 1 "c" "d")]).isSome :=
  c9_no_panic_on_wellpaired (fun t s => (t, s)) _ (by decide)

theorem mapLinksGo_neutral (cb : String → String → String × String)
    (tgt : String) (mid : List Event) (h : mid.all evNeutral = true)
    (lt2 : Nat) (t2 ttl2 : String) (rest : List Event) :
    mapLinksGo cb true (some tgt)
        (mid ++ Event.endT (Tag.link lt2 t2 ttl2) :: rest) =
      (mapLinksGo cb false none rest).map
        (fun r => mid ++ Event.endT (Tag.link lt2 tgt "") :: r) := by
  induction mid with
  | nil => simp [mapLinksGo]
  | cons e mid ih =>
    simp only [List.all_cons, Bool.and_eq_true] at h
    obtain ⟨he, hmid⟩ := h
    cases e with
    | start tg =>
      cases tg with
      | link lt a b => simp [evNeutral] at he
      | otherTag k2 =>
        have step : mapLinksGo cb true (some tgt)
            ((Event.start (Tag.otherTag k2) :: mid) ++
              Event.endT (Tag.link lt2 t2 ttl2) :: rest) =
            (mapLinksGo cb true (some tgt)
              (mid ++ Event.endT (Tag.link lt2 t2 ttl2) :: rest)).map
                (fun r => Event.start (Tag.otherTag k2) :: r) := rfl
        rw [step, ih hmid, Option.map_map]
        rfl
    | endT tg =>
      cases tg with
      | link lt a b => simp [evNeutral] at he
      | otherTag k2 =>
        have step : mapLinksGo cb true (some tgt)
            ((Event.endT (Tag.otherTag k2) :: mid) ++
              Event.endT (Tag.link lt2 t2 ttl2) :: rest) =
            (mapLinksGo cb true (some tgt)
              (mid ++ Event.endT (Tag.link lt2 t2 ttl2) :: rest)).map
                (fun r => Event.endT (Tag.otherTag k2) :: r) := rfl
        rw [step, ih hmid, Option.map_map]
        rfl
    | text s => simp [evNeutral] at he
    | code s => simp [evNeutral] at he
    | otherEv k2 =>
      have step : mapLinksGo cb true (some tgt)
          ((Event.otherEv k2 :: mid) ++
            Event.endT (Tag.link lt2 t2 ttl2) :: rest) =
          (mapLinksGo cb true (some tgt)
            (mid ++ Event.endT (Tag.link lt2 t2 ttl2) :: rest)).map
              (fun r => Event.otherEv k2 :: r) := rfl
      rw [step, ih hmid, Option.map_map]
      rfl

/--
C10.  A well-paired link with no text and no code-span event between its
link-start and link-end (only pass-through events) is re-emitted by
map_links with its original target and an empty title on the link-end,
and the callback — hence either resolver — is never invoked for it: the
output segment for the link does not depend on the callback at all (the
callback occurs only in the processing of the remaining events).
-/
theorem c10_childless_link_bypasses_resolvers
    (cb : String → String → String × String) (lt lt2 : Nat)
    (tgt ttl t2 ttl2 : String) (mid : List Event)
    (h : mid.all evNeutral = true) (rest : List Event) :
    map_links cb
        (Event.start (Tag.link lt tgt ttl) ::
          (mid ++ Event.endT (Tag.link lt2 t2 ttl2) :: rest)) =
      (mapLinksGo cb false none rest).map
        (fun r => Event.start (Tag.link lt tgt ttl) ::
          (mid ++ Event.endT (Tag.link lt2 tgt "") :: r)) := by
  simp only [map_links, mapLinksGo, mapLinksGo_neutral cb tgt mid h lt2 t2 ttl2 rest,
    Option.map_map]
  rfl

/--
C10 (witness), for a link whose body is a single pass-through event.
-/
theorem c10_witness :
    map_links (fun t s => (t ++ "!", s ++ "?"))
        (Event.start (Tag.link 0 "orig" "ttl") ::
          ([Event.otherEv 7] ++ Event.endT (Tag.link 0 "t2" "ttl2") :: [])) =
      some [Event.start (Tag.link 0 "orig" "ttl"), Event.otherEv 7,
            Event.endT (Tag.link 0 "orig" "")] :=
  c10_childless_link_bypasses_resolvers (fun t s => (t ++ "!", s ++ "?"))
    0 0 "orig" "ttl" "t2" "ttl2" [Event.otherEv 7] (by decide) []

/- ===== C4: get_doc_url fallback behaviour ===== -/

/-
  A crate named widgets whose root module has no doc annotation at all.
-/
def exDB4a : DB :=
  { parseModPath := fun _ => none,
    resolverOf := fun _ => none,
    moduleOf := fun _ => some exModule,
    displayName := fun _ => some "widgets",
    importMapPathOf := fun _ _ => none,
    rootModule := fun _ => some exModule,
    attrsDoc := fun _ => { docExists := false, ttValues := [] } }

/-
  A crate named widgets whose root module has a doc annotation that
  contains no html_root_url string literal.
-/
def exDB4b : DB :=
  { parseModPath := fun _ => none,
    resolverOf := fun _ => none,
    moduleOf := fun _ => some exModule,
    displayName := fun _ => some "widgets",
    importMapPathOf := fun _ _ => none,
    rootModule := fun _ => some exModule,
    attrsDoc := fun _ =>
      { docExists := true,
        ttValues := [[TokenTree.leaf (TtLeaf.ident "no_inline")]] } }

/--
C4 (counterexample).  When the doc annotation is present but no
html_root_url string literal can be found inside it, get_doc_url does NOT
fall back to the docs.rs template: it returns none.
-/
theorem c4_counterexample : get_doc_url exDB4b exCrate = none := by decide

/--
C4 (amended).  get_doc_url returns the fallback URL built from
"https://docs.rs/<compilation-unit-name>/*" (normalized to end in exactly
one trailing slash) only in the first failure case — the doc annotation
absent from the root module (and a display name available); when the
annotation is present but no html_root_url string literal is found inside
it, get_doc_url returns none instead.
-/
theorem c4_fallback_only_when_attr_absent :
    (∀ (db : DB) (k : Crate) (m : Module),
      db.rootModule k = some m →
      (db.attrsDoc m).docExists = false →
      db.displayName k = some "widgets" →
      get_doc_url db k =
        some { scheme := "https", host := "docs.rs",
               path := ["widgets", "*", ""] } ∧
      (get_doc_url db k).map Url.toString =
        some "https://docs.rs/widgets/*/") ∧
    (∀ (db : DB) (k : Crate) (m : Module),
      db.rootModule k = some m →
      (db.attrsDoc m).docExists = true →
      (db.attrsDoc m).ttValues.filterMap findHtmlRootUrl = [] →
      get_doc_url db k = none) := by
  constructor
  · intro db k m h1 h2 h3
    have key : get_doc_url db k =
        (match db.rootModule k with
         | none => none
         | some root =>
           (if (db.attrsDoc root).docExists then
              ((db.attrsDoc root).ttValues.filterMap findHtmlRootUrl).head?
            else
              (db.displayName k).map
                (fun name => "https://docs.rs/" ++ name ++ "/*")).bind
             (fun s =>
               Url.parse?
                 (trimEndMatches (trimMatchesChar s '"') "/" ++ "/"))) := by
      unfold get_doc_url
      rfl
    rw [key, h1]
    simp only [h2, if_false, h3, Bool.false_eq_true]
    constructor
    · decide
    · decide
  · intro db k m h1 h2 h3
    have key : get_doc_url db k =
        (match db.rootModule k with
         | none => none
         | some root =>
           (if (db.attrsDoc root).docExists then
              ((db.attrsDoc root).ttValues.filterMap findHtmlRootUrl).head?
            else
              (db.displayName k).map
                (fun name => "https://docs.rs/" ++ name ++ "/*")).bind
             (fun s =>
               Url.parse?
                 (trimEndMatches (trimMatchesChar s '"') "/" ++ "/"))) := by
      unfold get_doc_url
      rfl
    rw [key, h1]
    simp only [h2, if_true, h3, List.head?_nil, Option.none_bind]

/--
C4 (witness for the amended theorem), at the two concrete widgets crates.
-/
theorem c4_witness :
    get_doc_url exDB4a exCrate =
      some { scheme := "https", host := "docs.rs",
             path := ["widgets", "*", ""] } ∧
    get_doc_url exDB4b exCrate = none :=
  ⟨(c4_fallback_only_when_attr_absent.1 exDB4a exCrate exModule rfl rfl
      rfl).1,
   c4_fallback_only_when_attr_absent.2 exDB4b exCrate exModule rfl rfl
     (by decide)⟩

/- ===== C8: (non-)idempotence of strip_prefixes_suffixes ===== -/

/- All table entries stripped from the front resp. from the back. -/
def allStripPre : List String := TYPES.1 ++ VALUES.1 ++ MACROS.1

def allStripSuf : List String := TYPES.2 ++ VALUES.2 ++ MACROS.2

/-
  A string on which every trimming stage of strip_prefixes_suffixes is a
  no-op: no leading/trailing backtick, no table entry at the start or at
  the end, no leading '@', and no surrounding whitespace.
-/
def stripClean (t : String) : Bool :=
  !(startsWithStr t (String.mk [btick])) &&
  !(endsWithStr t (String.mk [btick])) &&
  (allStripPre.all (fun p => !(startsWithStr t p))) &&
  (allStripSuf.all (fun p => !(endsWithStr t p))) &&
  !(startsWithStr t "@") &&
  (match t.toList.head? with | some c => !c.isWhitespace | none => true) &&
  (match t.toList.reverse.head? with
    | some c => !c.isWhitespace | none => true)

theorem mk_toList (s : String) : String.mk s.toList = s := rfl

theorem stripPreRep_eq_self (p s : List Char)
    (h : p.isPrefixOf s = false) : stripPreRep p s = s := by
  unfold stripPreRep
  simp [stripPreAux, h]

theorem trimStartMatches_eq_self (s p : String)
    (h : startsWithStr s p = false) : trimStartMatches s p = s := by
  unfold trimStartMatches
  rw [stripPreRep_eq_self _ _ h, mk_toList]

theorem trimEndMatches_eq_self (s p : String)
    (h : endsWithStr s p = false) : trimEndMatches s p = s := by
  unfold trimEndMatches
  have h2 : p.toList.reverse.isPrefixOf s.toList.reverse = false := h
  rw [stripPreRep_eq_self _ _ h2, List.reverse_reverse, mk_toList]

theorem dropWhile_eq_self_of_head (f : Char → Bool) (l : List Char)
    (h : ∀ c, l.head? = some c → f c = false) : l.dropWhile f = l := by
  cases l with
  | nil => rfl
  | cons a t => simp [List.dropWhile_cons, h a rfl]

theorem singleton_notPrefix_head (c : Char) (l : List Char)
    (h : [c].isPrefixOf l = false) :
    ∀ x, l.head? = some x → (x == c) = false := by
  intro x hx
  cases l with
  | nil => simp at hx
  | cons a t =>
    simp only [List.head?_cons, Option.some.injEq] at hx
    subst hx
    simp only [List.isPrefixOf_cons₂, List.isPrefixOf_nil_left,
      Bool.and_true] at h
    cases hac : a == c with
    | false => rfl
    | true =>
      have : a = c := by simpa using hac
      subst this
      simp at h

theorem trimMatchesChar_eq_self (s : String) (c : Char)
    (h1 : startsWithStr s (String.mk [c]) = false)
    (h2 : endsWithStr s (String.mk [c]) = false) :
    trimMatchesChar s c = s := by
  unfold trimMatchesChar
  rw [dropWhile_eq_self_of_head _ _ (singleton_notPrefix_head c _ h1)]
  rw [dropWhile_eq_self_of_head _ _ (singleton_notPrefix_head c _ h2)]
  rw [List.reverse_reverse, mk_toList]

theorem trimWs_eq_self (s : String)
    (h1 : ∀ c, s.toList.head? = some c → c.isWhitespace = false)
    (h2 : ∀ c, s.toList.reverse.head? = some c → c.isWhitespace = false) :
    trimWs s = s := by
  unfold trimWs
  rw [dropWhile_eq_self_of_head _ _ h1, dropWhile_eq_self_of_head _ _ h2,
    List.reverse_reverse, mk_toList]

theorem foldl_trimStart_eq_self (l : List String) (t : String)
    (h : ∀ p ∈ l, startsWithStr t p = false) :
    l.foldl (fun acc p => trimStartMatches acc p) t = t := by
  induction l with
  | nil => rfl
  | cons q l ih =>
    simp only [List.foldl_cons]
    rw [trimStartMatches_eq_self t q (h q (by simp))]
    exact ih (fun p hp => h p (by simp [hp]))

theorem foldl_trimEnd_eq_self (l : List String) (t : String)
    (h : ∀ p ∈ l, endsWithStr t p = false) :
    l.foldl (fun acc p => trimEndMatches acc p) t = t := by
  induction l with
  | nil => rfl
  | cons q l ih =>
    simp only [List.foldl_cons]
    rw [trimEndMatches_eq_self t q (h q (by simp))]
    exact ih (fun p hp => h p (by simp [hp]))

theorem stripTable_eq_self (tbl : List String × List String) (t : String)
    (hp : ∀ p ∈ tbl.1, startsWithStr t p = false)
    (hs : ∀ p ∈ tbl.2, endsWithStr t p = false) :
    stripTable t tbl = t := by
  unfold stripTable
  rw [foldl_trimStart_eq_self _ _ hp, foldl_trimEnd_eq_self _ _ hs]

/- strip_prefixes_suffixes is a no-op on clean strings. -/
theorem strip_eq_self_of_clean (t : String) (h : stripClean t = true) :
    strip_prefixes_suffixes t = t := by
  unfold stripClean at h
  simp only [Bool.and_eq_true, Bool.not_eq_true', List.all_eq_true] at h
  obtain ⟨⟨⟨⟨⟨⟨hb1, hb2⟩, hpre⟩, hsuf⟩, hat⟩, hw1⟩, hw2⟩ := h
  have hwh1 : ∀ c, t.toList.head? = some c → c.isWhitespace = false := by
    intro c hc
    rw [hc] at hw1
    simpa using hw1
  have hwh2 : ∀ c, t.toList.reverse.head? = some c →
      c.isWhitespace = false := by
    intro c hc
    rw [hc] at hw2
    simpa using hw2
  have hpre' : ∀ p ∈ allStripPre, startsWithStr t p = false := by
    intro p hp
    simpa using hpre p hp
  have hsuf' : ∀ p ∈ allStripSuf, endsWithStr t p = false := by
    intro p hp
    simpa using hsuf p hp
  unfold strip_prefixes_suffixes
  rw [trimMatchesChar_eq_self t btick hb1 hb2]
  have hfold : nsAllTables.foldl stripTable t = t := by
    have e1 : stripTable t TYPES = t :=
      stripTable_eq_self TYPES t
        (fun p hp => hpre' p (by simp [allStripPre, hp]))
        (fun p hp => hsuf' p (by simp [allStripSuf, hp]))
    have e2 : stripTable t VALUES = t :=
      stripTable_eq_self VALUES t
        (fun p hp => hpre' p (by simp [allStripPre, hp]))
        (fun p hp => hsuf' p (by simp [allStripSuf, hp]))
    have e3 : stripTable t MACROS = t :=
      stripTable_eq_self MACROS t
        (fun p hp => hpre' p (by simp [allStripPre, hp]))
        (fun p hp => hsuf' p (by simp [allStripSuf, hp]))
    show List.foldl stripTable t [TYPES, VALUES, MACROS] = t
    rw [List.foldl_cons, e1, List.foldl_cons, e2, List.foldl_cons, e3,
      List.foldl_nil]
  show trimWs (trimStartMatches (List.foldl stripTable t nsAllTables) "@") = t
  rw [hfold, trimStartMatches_eq_self t "@" hat, trimWs_eq_self t hwh1 hwh2]

/-
  Converse direction: every individual trim either leaves its input
  unchanged or strictly shortens it, so a fixed point of
  strip_prefixes_suffixes must be left unchanged by every stage — which
  is exactly the stripClean condition.
-/

theorem toList_ne_nil (p : String) (hp : p ≠ "") : p.toList ≠ [] := by
  intro h0
  apply hp
  rw [← mk_toList p, h0]

theorem dropWhile_dicho (p : Char → Bool) (l : List Char) :
    l.dropWhile p = l ∨ (l.dropWhile p).length < l.length := by
  by_cases h : l.dropWhile p = l
  · exact Or.inl h
  · refine Or.inr (Nat.lt_of_le_of_ne (List.dropWhile_suffix p).length_le ?_)
    intro hl
    exact h ((List.dropWhile_suffix p).sublist.eq_of_length hl)

/- Common shape of trim_matches / trim: drop from both ends. -/
def trimBoth (p : Char → Bool) (t : String) : String :=
  String.mk (((t.toList.dropWhile p).reverse.dropWhile p).reverse)

theorem trimMatchesChar_eq_trimBoth (t : String) (c : Char) :
    trimMatchesChar t c = trimBoth (fun x => x == c) t := rfl

theorem trimWs_eq_trimBoth (t : String) :
    trimWs t = trimBoth Char.isWhitespace t := rfl

theorem trimBoth_length_le (p : Char → Bool) (t : String) :
    (trimBoth p t).length ≤ t.length := by
  have h1 : ((t.toList.dropWhile p).reverse.dropWhile p).length ≤
      (t.toList.dropWhile p).reverse.length :=
    (List.dropWhile_suffix p).length_le
  have h2 : (t.toList.dropWhile p).length ≤ t.toList.length :=
    (List.dropWhile_suffix p).length_le
  show (((t.toList.dropWhile p).reverse.dropWhile p).reverse).length ≤
    t.toList.length
  rw [List.length_reverse]
  rw [List.length_reverse] at h1
  omega

theorem trimBoth_dicho (p : Char → Bool) (t : String) :
    trimBoth p t = t ∨ (trimBoth p t).length < t.length := by
  cases dropWhile_dicho p t.toList with
  | inl h1 =>
    cases dropWhile_dicho p t.toList.reverse with
    | inl h2 =>
      left
      unfold trimBoth
      rw [h1, h2, List.reverse_reverse, mk_toList]
    | inr h2 =>
      right
      show (trimBoth p t).length < t.toList.length
      unfold trimBoth
      rw [h1]
      show ((t.toList.reverse.dropWhile p).reverse).length < t.toList.length
      rw [List.length_reverse]
      rw [List.length_reverse] at h2
      exact h2
  | inr h1 =>
    right
    have h2 : ((t.toList.dropWhile p).reverse.dropWhile p).length ≤
        (t.toList.dropWhile p).reverse.length :=
      (List.dropWhile_suffix p).length_le
    show (((t.toList.dropWhile p).reverse.dropWhile p).reverse).length <
      t.toList.length
    rw [List.length_reverse]
    rw [List.length_reverse] at h2
    omega

theorem trimBoth_length_lt_head (p : Char → Bool) (t : String) (c : Char)
    (hc : t.toList.head? = some c) (hp : p c = true) :
    (trimBoth p t).length < t.length := by
  cases e : t.toList with
  | nil => rw [e] at hc; simp at hc
  | cons a rest =>
    have ha : a = c := by rw [e] at hc; simpa using hc
    subst ha
    have h1 : (t.toList.dropWhile p).length ≤ rest.length := by
      rw [e, List.dropWhile_cons, hp]
      exact (List.dropWhile_suffix p).length_le
    have h2 : ((t.toList.dropWhile p).reverse.dropWhile p).length ≤
        (t.toList.dropWhile p).reverse.length :=
      (List.dropWhile_suffix p).length_le
    have hlen : t.toList.length = rest.length + 1 := by rw [e]; rfl
    show (((t.toList.dropWhile p).reverse.dropWhile p).reverse).length <
      t.toList.length
    rw [List.length_reverse]
    rw [List.length_reverse] at h2
    omega

theorem trimBoth_length_lt_last (p : Char → Bool) (t : String) (c : Char)
    (hc : t.toList.reverse.head? = some c) (hp : p c = true) :
    (trimBoth p t).length < t.length := by
  cases dropWhile_dicho p t.toList with
  | inr h1 =>
    have h2 : ((t.toList.dropWhile p).reverse.dropWhile p).length ≤
        (t.toList.dropWhile p).reverse.length :=
      (List.dropWhile_suffix p).length_le
    show (((t.toList.dropWhile p).reverse.dropWhile p).reverse).length <
      t.toList.length
    rw [List.length_reverse]
    rw [List.length_reverse] at h2
    omega
  | inl h1 =>
    cases e : t.toList.reverse with
    | nil => rw [e] at hc; simp at hc
    | cons a rest =>
      have ha : a = c := by rw [e] at hc; simpa using hc
      subst ha
      have h2 : (t.toList.reverse.dropWhile p).length ≤ rest.length := by
        rw [e, List.dropWhile_cons, hp]
        exact (List.dropWhile_suffix p).length_le
      have hlen : t.toList.length = rest.length + 1 := by
        rw [← List.length_reverse t.toList, e]
        rfl
      show (((t.toList.dropWhile p).reverse.dropWhile p).reverse).length <
        t.toList.length
      rw [h1, List.length_reverse]
      omega

theorem trimMatchesChar_dicho (t : String) (c : Char) :
    trimMatchesChar t c = t ∨ (trimMatchesChar t c).length < t.length := by
  rw [trimMatchesChar_eq_trimBoth]
  exact trimBoth_dicho (fun x => x == c) t

theorem trimWs_dicho (t : String) :
    trimWs t = t ∨ (trimWs t).length < t.length := by
  rw [trimWs_eq_trimBoth]
  exact trimBoth_dicho Char.isWhitespace t

theorem trimWs_length_le (t : String) : (trimWs t).length ≤ t.length := by
  rw [trimWs_eq_trimBoth]
  exact trimBoth_length_le Char.isWhitespace t

theorem stripPreAux_length_le (p : List Char) :
    ∀ (fuel : Nat) (s : List Char), (stripPreAux p fuel s).length ≤ s.length := by
  intro fuel
  induction fuel with
  | zero => intro s; exact Nat.le_refl _
  | succ n ih =>
    intro s
    by_cases h : p ≠ [] ∧ p.isPrefixOf s = true
    · have step : stripPreAux p (n + 1) s =
          stripPreAux p n (List.drop p.length s) := by
        simp only [stripPreAux, if_pos h]
      rw [step]
      have h1 := ih (List.drop p.length s)
      have h2 : (List.drop p.length s).length ≤ s.length := by
        rw [List.length_drop]
        omega
      omega
    · simp only [stripPreAux, if_neg h]
      exact Nat.le_refl _

theorem stripPreRep_length_le (p s : List Char) :
    (stripPreRep p s).length ≤ s.length :=
  stripPreAux_length_le p (s.length + 1) s

theorem stripPreRep_length_lt (p s : List Char) (hp : p ≠ [])
    (h : p.isPrefixOf s = true) : (stripPreRep p s).length < s.length := by
  have step : stripPreRep p s =
      stripPreAux p s.length (List.drop p.length s) := by
    unfold stripPreRep
    simp only [stripPreAux, if_pos (And.intro hp h)]
  rw [step]
  have h1 := stripPreAux_length_le p s.length (List.drop p.length s)
  have hplen : 0 < p.length := List.length_pos.mpr hp
  have hps : p.length ≤ s.length :=
    (List.isPrefixOf_iff_prefix.mp h).length_le
  rw [List.length_drop] at h1
  omega

theorem trimStartMatches_length_le (t p : String) :
    (trimStartMatches t p).length ≤ t.length :=
  stripPreRep_length_le p.toList t.toList

theorem trimStartMatches_length_lt (t p : String) (hp : p ≠ "")
    (hs : startsWithStr t p = true) :
    (trimStartMatches t p).length < t.length :=
  stripPreRep_length_lt p.toList t.toList (toList_ne_nil p hp) hs

theorem trimStartMatches_empty (t : String) : trimStartMatches t "" = t := by
  unfold trimStartMatches stripPreRep
  simp [stripPreAux, mk_toList]

theorem trimStartMatches_dicho (t p : String) :
    trimStartMatches t p = t ∨ (trimStartMatches t p).length < t.length := by
  by_cases hp : p = ""
  · subst hp
    exact Or.inl (trimStartMatches_empty t)
  · cases hs : startsWithStr t p with
    | false => exact Or.inl (trimStartMatches_eq_self t p hs)
    | true => exact Or.inr (trimStartMatches_length_lt t p hp hs)

theorem startsWith_false_of_id (t p : String) (hp : p ≠ "")
    (h : trimStartMatches t p = t) : startsWithStr t p = false := by
  cases hs : startsWithStr t p with
  | false => rfl
  | true =>
    exact absurd (congrArg String.length h)
      (Nat.ne_of_lt (trimStartMatches_length_lt t p hp hs))

theorem trimEndMatches_length_le (t p : String) :
    (trimEndMatches t p).length ≤ t.length := by
  have h1 := stripPreRep_length_le p.toList.reverse t.toList.reverse
  show ((stripPreRep p.toList.reverse t.toList.reverse).reverse).length ≤
    t.toList.length
  rw [List.length_reverse]
  rw [List.length_reverse] at h1
  exact h1

theorem trimEndMatches_length_lt (t p : String) (hp : p ≠ "")
    (hs : endsWithStr t p = true) :
    (trimEndMatches t p).length < t.length := by
  have hrev : p.toList.reverse ≠ [] := by
    intro h0
    exact toList_ne_nil p hp (by simpa using h0)
  have h1 := stripPreRep_length_lt p.toList.reverse t.toList.reverse hrev hs
  show ((stripPreRep p.toList.reverse t.toList.reverse).reverse).length <
    t.toList.length
  rw [List.length_reverse]
  rw [List.length_reverse] at h1
  exact h1

theorem trimEndMatches_empty (t : String) : trimEndMatches t "" = t := by
  unfold trimEndMatches stripPreRep
  simp [stripPreAux, mk_toList]

theorem trimEndMatches_dicho (t p : String) :
    trimEndMatches t p = t ∨ (trimEndMatches t p).length < t.length := by
  by_cases hp : p = ""
  · subst hp
    exact Or.inl (trimEndMatches_empty t)
  · cases hs : endsWithStr t p with
    | false => exact Or.inl (trimEndMatches_eq_self t p hs)
    | true => exact Or.inr (trimEndMatches_length_lt t p hp hs)

theorem endsWith_false_of_id (t p : String) (hp : p ≠ "")
    (h : trimEndMatches t p = t) : endsWithStr t p = false := by
  cases hs : endsWithStr t p with
  | false => rfl
  | true =>
    exact absurd (congrArg String.length h)
      (Nat.ne_of_lt (trimEndMatches_length_lt t p hp hs))

theorem foldl_trimStart_length_le (l : List String) (t : String) :
    (l.foldl (fun acc p => trimStartMatches acc p) t).length ≤ t.length := by
  induction l generalizing t with
  | nil => exact Nat.le_refl _
  | cons q l ih =>
    exact le_trans (ih (trimStartMatches t q)) (trimStartMatches_length_le t q)

theorem foldl_trimStart_dicho (l : List String) (t : String) :
    l.foldl (fun acc p => trimStartMatches acc p) t = t ∨
    (l.foldl (fun acc p => trimStartMatches acc p) t).length < t.length := by
  induction l generalizing t with
  | nil => exact Or.inl rfl
  | cons q l ih =>
    rw [List.foldl_cons]
    cases trimStartMatches_dicho t q with
    | inl he => rw [he]; exact ih t
    | inr hl =>
      exact Or.inr (lt_of_le_of_lt (foldl_trimStart_length_le l _) hl)

theorem foldl_trimStart_id (l : List String) (t : String)
    (h : l.foldl (fun acc p => trimStartMatches acc p) t = t) :
    ∀ p ∈ l, trimStartMatches t p = t := by
  induction l with
  | nil => intro p hp; simp at hp
  | cons q l ih =>
    rw [List.foldl_cons] at h
    cases trimStartMatches_dicho t q with
    | inr hl =>
      exfalso
      have h2 := foldl_trimStart_length_le l (trimStartMatches t q)
      rw [h] at h2
      omega
    | inl he =>
      rw [he] at h
      intro p hp
      rcases List.mem_cons.mp hp with rfl | hp2
      · exact he
      · exact ih h p hp2

theorem foldl_trimEnd_length_le (l : List String) (t : String) :
    (l.foldl (fun acc p => trimEndMatches acc p) t).length ≤ t.length := by
  induction l generalizing t with
  | nil => exact Nat.le_refl _
  | cons q l ih =>
    exact le_trans (ih (trimEndMatches t q)) (trimEndMatches_length_le t q)

theorem foldl_trimEnd_dicho (l : List String) (t : String) :
    l.foldl (fun acc p => trimEndMatches acc p) t = t ∨
    (l.foldl (fun acc p => trimEndMatches acc p) t).length < t.length := by
  induction l generalizing t with
  | nil => exact Or.inl rfl
  | cons q l ih =>
    rw [List.foldl_cons]
    cases trimEndMatches_dicho t q with
    | inl he => rw [he]; exact ih t
    | inr hl =>
      exact Or.inr (lt_of_le_of_lt (foldl_trimEnd_length_le l _) hl)

theorem foldl_trimEnd_id (l : List String) (t : String)
    (h : l.foldl (fun acc p => trimEndMatches acc p) t = t) :
    ∀ p ∈ l, trimEndMatches t p = t := by
  induction l with
  | nil => intro p hp; simp at hp
  | cons q l ih =>
    rw [List.foldl_cons] at h
    cases trimEndMatches_dicho t q with
    | inr hl =>
      exfalso
      have h2 := foldl_trimEnd_length_le l (trimEndMatches t q)
      rw [h] at h2
      omega
    | inl he =>
      rw [he] at h
      intro p hp
      rcases List.mem_cons.mp hp with rfl | hp2
      · exact he
      · exact ih h p hp2

theorem stripTable_length_le (t : String) (tbl : List String × List String) :
    (stripTable t tbl).length ≤ t.length := by
  unfold stripTable
  exact le_trans (foldl_trimEnd_length_le tbl.2 _)
    (foldl_trimStart_length_le tbl.1 t)

theorem stripTable_dicho (t : String) (tbl : List String × List String) :
    stripTable t tbl = t ∨ (stripTable t tbl).length < t.length := by
  unfold stripTable
  cases foldl_trimStart_dicho tbl.1 t with
  | inl he =>
    rw [he]
    exact foldl_trimEnd_dicho tbl.2 t
  | inr hl =>
    exact Or.inr (lt_of_le_of_lt (foldl_trimEnd_length_le tbl.2 _) hl)

theorem stripTable_id (t : String) (tbl : List String × List String)
    (h : stripTable t tbl = t) :
    tbl.1.foldl (fun acc p => trimStartMatches acc p) t = t ∧
    tbl.2.foldl (fun acc p => trimEndMatches acc p) t = t := by
  unfold stripTable at h
  cases foldl_trimStart_dicho tbl.1 t with
  | inr hl =>
    exfalso
    have h2 := foldl_trimEnd_length_le tbl.2
      (tbl.1.foldl (fun acc p => trimStartMatches acc p) t)
    rw [h] at h2
    omega
  | inl he =>
    rw [he] at h
    exact ⟨he, h⟩

theorem foldl_stripTable_length_le (ts : List (List String × List String))
    (t : String) : (ts.foldl stripTable t).length ≤ t.length := by
  induction ts generalizing t with
  | nil => exact Nat.le_refl _
  | cons tbl ts ih =>
    exact le_trans (ih (stripTable t tbl)) (stripTable_length_le t tbl)

theorem foldl_stripTable_dicho (ts : List (List String × List String))
    (t : String) :
    ts.foldl stripTable t = t ∨ (ts.foldl stripTable t).length < t.length := by
  induction ts generalizing t with
  | nil => exact Or.inl rfl
  | cons tbl ts ih =>
    rw [List.foldl_cons]
    cases stripTable_dicho t tbl with
    | inl he => rw [he]; exact ih t
    | inr hl =>
      exact Or.inr (lt_of_le_of_lt (foldl_stripTable_length_le ts _) hl)

theorem foldl_stripTable_id (ts : List (List String × List String))
    (t : String) (h : ts.foldl stripTable t = t) :
    ∀ tbl ∈ ts, stripTable t tbl = t := by
  induction ts with
  | nil => intro tbl htbl; simp at htbl
  | cons tb ts ih =>
    rw [List.foldl_cons] at h
    cases stripTable_dicho t tb with
    | inr hl =>
      exfalso
      have h2 := foldl_stripTable_length_le ts (stripTable t tb)
      rw [h] at h2
      omega
    | inl he =>
      rw [he] at h
      intro tbl htbl
      rcases List.mem_cons.mp htbl with rfl | htbl2
      · exact he
      · exact ih h tbl htbl2

theorem head_of_startsWith_single (t : String) (c : Char)
    (h : startsWithStr t (String.mk [c]) = true) :
    t.toList.head? = some c := by
  have hpre : [c] <+: t.toList := List.isPrefixOf_iff_prefix.mp h
  obtain ⟨u, hu⟩ := hpre
  rw [← hu]
  rfl

theorem revHead_of_endsWith_single (t : String) (c : Char)
    (h : endsWithStr t (String.mk [c]) = true) :
    t.toList.reverse.head? = some c := by
  have hpre : [c] <+: t.toList.reverse := List.isPrefixOf_iff_prefix.mp h
  obtain ⟨u, hu⟩ := hpre
  rw [← hu]
  rfl

/- A fixed point of strip_prefixes_suffixes satisfies stripClean. -/
theorem stripClean_of_strip_eq_self (t : String)
    (h : strip_prefixes_suffixes t = t) : stripClean t = true := by
  have h0 : trimWs (trimStartMatches
      (List.foldl stripTable (trimMatchesChar t btick) nsAllTables) "@") =
      t := h
  have hf1 : trimMatchesChar t btick = t := by
    cases trimMatchesChar_dicho t btick with
    | inl he => exact he
    | inr hl =>
      exfalso
      have m1 : (trimWs (trimStartMatches
          (List.foldl stripTable (trimMatchesChar t btick) nsAllTables)
            "@")).length ≤ (trimMatchesChar t btick).length :=
        le_trans (trimWs_length_le _)
          (le_trans (trimStartMatches_length_le _ _)
            (foldl_stripTable_length_le _ _))
      rw [h0] at m1
      omega
  rw [hf1] at h0
  have hfold : List.foldl stripTable t nsAllTables = t := by
    cases foldl_stripTable_dicho nsAllTables t with
    | inl he => exact he
    | inr hl =>
      exfalso
      have m1 : (trimWs (trimStartMatches
          (List.foldl stripTable t nsAllTables) "@")).length ≤
          (List.foldl stripTable t nsAllTables).length :=
        le_trans (trimWs_length_le _) (trimStartMatches_length_le _ _)
      rw [h0] at m1
      omega
  rw [hfold] at h0
  have hat : trimStartMatches t "@" = t := by
    cases trimStartMatches_dicho t "@" with
    | inl he => exact he
    | inr hl =>
      exfalso
      have m1 : (trimWs (trimStartMatches t "@")).length ≤
          (trimStartMatches t "@").length := trimWs_length_le _
      rw [h0] at m1
      omega
  rw [hat] at h0
  have hws : trimWs t = t := h0
  have htb := foldl_stripTable_id nsAllTables t hfold
  have hT := stripTable_id t TYPES (htb TYPES (by simp [nsAllTables]))
  have hV := stripTable_id t VALUES (htb VALUES (by simp [nsAllTables]))
  have hMa := stripTable_id t MACROS (htb MACROS (by simp [nsAllTables]))
  have hpreT := foldl_trimStart_id TYPES.1 t hT.1
  have hpreV := foldl_trimStart_id VALUES.1 t hV.1
  have hpreM := foldl_trimStart_id MACROS.1 t hMa.1
  have hsufT := foldl_trimEnd_id TYPES.2 t hT.2
  have hsufV := foldl_trimEnd_id VALUES.2 t hV.2
  have hsufM := foldl_trimEnd_id MACROS.2 t hMa.2
  have hneP : ∀ p ∈ allStripPre, p ≠ "" := by decide
  have hneS : ∀ p ∈ allStripSuf, p ≠ "" := by decide
  unfold stripClean
  simp only [Bool.and_eq_true, Bool.not_eq_true']
  refine ⟨⟨⟨⟨⟨⟨?_, ?_⟩, ?_⟩, ?_⟩, ?_⟩, ?_⟩, ?_⟩
  · cases hs : startsWithStr t (String.mk [btick]) with
    | false => rfl
    | true =>
      exfalso
      have hhead := head_of_startsWith_single t btick hs
      have hlt : (trimMatchesChar t btick).length < t.length := by
        rw [trimMatchesChar_eq_trimBoth]
        exact trimBoth_length_lt_head _ t btick hhead (by simp)
      exact absurd (congrArg String.length hf1) (Nat.ne_of_lt hlt)
  · cases hs : endsWithStr t (String.mk [btick]) with
    | false => rfl
    | true =>
      exfalso
      have hlast := revHead_of_endsWith_single t btick hs
      have hlt : (trimMatchesChar t btick).length < t.length := by
        rw [trimMatchesChar_eq_trimBoth]
        exact trimBoth_length_lt_last _ t btick hlast (by simp)
      exact absurd (congrArg String.length hf1) (Nat.ne_of_lt hlt)
  · rw [List.all_eq_true]
    intro p hp
    have hid : trimStartMatches t p = t := by
      have hmem : p ∈ TYPES.1 ∨ p ∈ VALUES.1 ∨ p ∈ MACROS.1 := by
        simpa [allStripPre] using hp
      rcases hmem with h1 | h1 | h1
      · exact hpreT p h1
      · exact hpreV p h1
      · exact hpreM p h1
    simp [startsWith_false_of_id t p (hneP p hp) hid]
  · rw [List.all_eq_true]
    intro p hp
    have hid : trimEndMatches t p = t := by
      have hmem : p ∈ TYPES.2 ∨ p ∈ VALUES.2 ∨ p ∈ MACROS.2 := by
        simpa [allStripSuf] using hp
      rcases hmem with h1 | h1 | h1
      · exact hsufT p h1
      · exact hsufV p h1
      · exact hsufM p h1
    simp [endsWith_false_of_id t p (hneS p hp) hid]
  · exact startsWith_false_of_id t "@" (by decide) hat
  · cases e : t.toList.head? with
    | none => rfl
    | some c =>
      cases hw : c.isWhitespace with
      | false => simp [hw]
      | true =>
        exfalso
        have hlt : (trimWs t).length < t.length := by
          rw [trimWs_eq_trimBoth]
          exact trimBoth_length_lt_head Char.isWhitespace t c e hw
        exact absurd (congrArg String.length hws) (Nat.ne_of_lt hlt)
  · cases e : t.toList.reverse.head? with
    | none => rfl
    | some c =>
      cases hw : c.isWhitespace with
      | false => simp [hw]
      | true =>
        exfalso
        have hlt : (trimWs t).length < t.length := by
          rw [trimWs_eq_trimBoth]
          exact trimBoth_length_lt_last Char.isWhitespace t c e hw
        exact absurd (congrArg String.length hws) (Nat.ne_of_lt hlt)

/- strip_prefixes_suffixes fixes exactly the clean strings. -/
theorem strip_fixed_iff_clean (t : String) :
    strip_prefixes_suffixes t = t ↔ stripClean t = true :=
  ⟨stripClean_of_strip_eq_self t, strip_eq_self_of_clean t⟩

/--
C8 (counterexample).  strip_prefixes_suffixes is not idempotent: on
"structtype" one application yields "type" (the "type" entry is tried
before "struct", so the survived "type" is only stripped by a second
pass, which yields "").
-/
theorem c8_counterexample :
    strip_prefixes_suffixes (strip_prefixes_suffixes "structtype") ≠
      strip_prefixes_suffixes "structtype" := by decide

/--
C8 (amended).  strip_prefixes_suffixes is idempotent exactly on the
inputs whose once-stripped form is clean — it retains no leading or
trailing backtick, no namespace table entry at the start or the end, no
leading '@' and no surrounding whitespace: stripping twice equals
stripping once if and only if the once-stripped form is clean.  (In
general idempotence fails, e.g. on "structtype".)
-/
theorem c8_strip_idempotent_iff_clean (s : String) :
    strip_prefixes_suffixes (strip_prefixes_suffixes s) =
      strip_prefixes_suffixes s ↔
    stripClean (strip_prefixes_suffixes s) = true :=
  strip_fixed_iff_clean (strip_prefixes_suffixes s)

/--
C8 (witness): both directions of the theorem at concrete inputs — on
"struct Foo" the stripped form "Foo" is clean and stripping twice equals
stripping once; on "structtype" the stripped form "type" is not clean
and idempotence indeed fails.
-/
theorem c8_witness :
    (strip_prefixes_suffixes (strip_prefixes_suffixes "struct Foo") =
      strip_prefixes_suffixes "struct Foo") ∧
    ¬ (strip_prefixes_suffixes (strip_prefixes_suffixes "structtype") =
      strip_prefixes_suffixes "structtype") :=
  ⟨(c8_strip_idempotent_iff_clean "struct Foo").mpr (by decide),
   fun hfix =>
     absurd ((c8_strip_idempotent_iff_clean "structtype").mp hfix)
       (by decide)⟩

end LinkRw
